import Mathlib

/-
Verification of the MeshCore simple_secure_chat console
(examples/simple_secure_chat/main.cpp and utils.h).

Byte strings are modelled as `List Nat` (the bytes of a NUL-terminated C
string, i.e. the bytes before the first NUL). Machine integers are Nat with
explicit reduction mod 2^32 where overflow matters. External collaborators
(SHA-256, base64 and hex codecs from the mesh library, the contact-store add
operation and iterator) are either taken as parameters or modelled from the
spec, as noted per definition.
-/

/-- Bytes of a string literal, for writing concrete C strings. -/
def toBytesS (s : String) : List Nat := s.data.map (fun c => c.toNat)

/-- ASCII tolower on a byte, as used by strcasecmp and the manual lowering
in AutocompleteVisitor::onContactVisit. -/
def toLowerByte (b : Nat) : Nat := if 65 ≤ b ∧ b ≤ 90 then b + 32 else b

/-- Lowercase every byte of a string. -/
def strLower (s : List Nat) : List Nat := s.map toLowerByte

/-- strcasecmp equality: the two NUL-terminated strings agree up to ASCII case. -/
def strCaseEq (a b : List Nat) : Bool := decide (strLower a = strLower b)

/-- strncasecmp(nm, p, p.length) = 0: p is a case-insensitive prefix of nm
(strncasecmp stops at a NUL, so a name shorter than p cannot match). -/
def ciPfxB (p nm : List Nat) : Bool := decide (strLower p = (strLower nm).take p.length)

/-- Modelled from the spec: encode_base64 (defined outside src, in the base64
library used via BaseChatMesh.cpp) is standard base64 with padding, the
channel-key encoding used for the built-in channel PSK literal. -/
def b64Char (n : Nat) : Nat :=
  if n < 26 then 65 + n
  else if n < 52 then 97 + (n - 26)
  else if n < 62 then 48 + (n - 52)
  else if n = 62 then 43 else 47

/-- Modelled from the spec: standard base64 encoding of a byte list. -/
def encodeBase64 : List Nat → List Nat
  | [] => []
  | [a] => [b64Char (a / 4), b64Char (a % 4 * 16), 61, 61]
  | [a, b] => [b64Char (a / 4), b64Char (a % 4 * 16 + b / 16), b64Char (b % 16 * 4), 61]
  | a :: b :: c :: rest =>
      b64Char (a / 4) :: b64Char (a % 4 * 16 + b / 16) ::
      b64Char (b % 16 * 4 + c / 64) :: b64Char (c % 64) :: encodeBase64 rest

/-- Hex digit value, ASCII (0-9, a-f, A-F). -/
def hexVal (c : Nat) : Nat :=
  if 48 ≤ c ∧ c ≤ 57 then c - 48
  else if 97 ≤ c ∧ c ≤ 102 then c - 87
  else if 65 ≤ c ∧ c ≤ 70 then c - 55
  else 0

/-- Modelled from the spec: mesh::Utils::fromHex (defined outside src) decodes
pairs of hex characters to raw bytes. -/
def hexToBytes : List Nat → List Nat
  | a :: b :: rest => (16 * hexVal a + hexVal b) :: hexToBytes rest
  | _ => []

/-- A persisted user channel slot (struct UserChannel): name, key_hex,
muted, active, with name and key_hex the bytes of the stored C strings. -/
structure Slot where
  name : List Nat
  key_hex : List Nat
  muted : Bool
  active : Bool
deriving DecidableEq, Repr

/-- A runtime channel entry of active_channels: its name and the base64 key
passed to addChannel. -/
structure RC where
  name : List Nat
  key : List Nat
deriving DecidableEq, Repr

/-- The built-in Public channel: fixed name and the PUBLIC_GROUP_PSK literal. -/
def pubChannel : RC := ⟨toBytesS "Public", toBytesS "izOH6cXN6mrJ5e26oRXNcg=="⟩

/-- Key derivation for one slot, from MyMesh::initChannels: a name starting
with '#' (byte 35) hashes the name and base64-encodes the first 16 hash
bytes; otherwise a nonempty key_hex of 32 or 64 hex chars is decoded and
base64-encoded (hexToBase64); otherwise the slot yields no channel.
`sha` stands for the external mesh::Utils::sha256 (32-byte output). -/
def deriveKey (sha : List Nat → List Nat) (s : Slot) : Option (List Nat) :=
  if s.name.headD 0 = 35 then
    some (encodeBase64 ((sha s.name).take 16))
  else if s.key_hex ≠ [] ∧ (s.key_hex.length = 32 ∨ s.key_hex.length = 64) then
    some (encodeBase64 (hexToBytes s.key_hex))
  else none

/-- The loop body of MyMesh::initChannels over the user slots: an active slot
whose key derives is appended to the dense runtime list while it has fewer
than maxCh entries. -/
def buildRuntimeAux (sha : List Nat → List Nat) (maxCh : Nat) :
    List Slot → List RC → List RC
  | [], acc => acc
  | s :: rest, acc =>
      if s.active = true ∧ acc.length < maxCh then
        match deriveKey sha s with
        | some k => buildRuntimeAux sha maxCh rest (acc ++ [⟨s.name, k⟩])
        | none => buildRuntimeAux sha maxCh rest acc
      else buildRuntimeAux sha maxCh rest acc

/-- MyMesh::initChannels: the dense runtime channel list, Public at index 0,
then the active slots with derivable keys in slot order. -/
def buildRuntime (sha : List Nat → List Nat) (maxCh : Nat) (slots : List Slot) : List RC :=
  buildRuntimeAux sha maxCh slots [pubChannel]

/-- The slot scan of MyMesh::findChannelByName: first active slot whose name
matches case-insensitively, returning the running 1-based count of active
slots seen so far (the nested loop computes 1 + number of active slots
strictly before the match). -/
def findChAux (name : List Nat) : List Slot → Nat → Option Nat
  | [], _ => none
  | s :: rest, acc =>
      if s.active = true ∧ strCaseEq s.name name = true then some acc
      else findChAux name rest (if s.active then acc + 1 else acc)

/-- MyMesh::findChannelByName: "public"/"pub" resolve to the built-in index 0,
else the slot scan; none models the C return value -1. -/
def findChannelByName (slots : List Slot) (name : List Nat) : Option Nat :=
  if strCaseEq name (toBytesS "public") = true ∨ strCaseEq name (toBytesS "pub") = true then
    some 0
  else findChAux name slots 1

/-- MyMesh::getChannelNameFromPrefs: index 0 is "Public"; an index idx with
0 < idx < maxCh names the idx-th active slot (counting from 1); otherwise
none. The selected index is an int in the source, hence Int here. -/
def getChannelNameFromPrefs (maxCh : Nat) (slots : List Slot) (idx : Int) :
    Option (List Nat) :=
  if idx = 0 then some (toBytesS "Public")
  else if 0 < idx ∧ idx < (maxCh : Int) then
    ((slots.filter (fun s => s.active)).get? (idx.toNat - 1)).map (fun s => s.name)
  else none

/-- MyMesh::removeUserChannel: deactivate the first active slot whose name
matches case-insensitively; none when no slot matches. -/
def removeFirst (name : List Nat) : List Slot → Option (List Slot)
  | [] => none
  | s :: rest =>
      if s.active = true ∧ strCaseEq s.name name = true then
        some ({ s with active := false } :: rest)
      else (removeFirst name rest).map (fun l => s :: l)

/-- Outcome of the `del ch` handler. -/
inductive DelResult where
  | builtinRefused
  | removed
  | notFound
deriving DecidableEq, Repr

/-- The prefs state the `del ch` handler touches: the user slots and the
selected channel index (int, -1 = none, 0 = Public). -/
structure ChatState where
  slots : List Slot
  selectedIdx : Int
deriving DecidableEq, Repr

/-- The `del ch <name>` branch of MyMesh::handleCommand: refuse "public";
otherwise deactivate the matching slot, then look up the name of the
selected index in the ALREADY-UPDATED slots and reset the selection to 0
only if that name matches the deleted one; the Bool is whether savePrefs
ran. -/
def delCh (maxCh : Nat) (st : ChatState) (chName : List Nat) :
    ChatState × Bool × DelResult :=
  if strCaseEq chName (toBytesS "public") = true then
    (st, false, DelResult.builtinRefused)
  else
    match removeFirst chName st.slots with
    | none => (st, false, DelResult.notFound)
    | some slots2 =>
        let sel := getChannelNameFromPrefs maxCh slots2 st.selectedIdx
        let newIdx :=
          match sel with
          | some nm => if strCaseEq nm chName = true then 0 else st.selectedIdx
          | none => st.selectedIdx
        (⟨slots2, newIdx⟩, true, DelResult.removed)

/-- First pass of MyMesh::setUserChannel: replace the key of the first active
slot whose name matches case-insensitively (strncpy truncates the stored
key to 63 chars). -/
def updateKeyFirst (name key : List Nat) : List Slot → Option (List Slot)
  | [] => none
  | s :: rest =>
      if s.active = true ∧ strCaseEq s.name name = true then
        some ({ s with key_hex := key.take 63 } :: rest)
      else (updateKeyFirst name key rest).map (fun l => s :: l)

/-- Second pass of MyMesh::setUserChannel: claim the first inactive slot with
the new name (truncated to 31), key (truncated to 63), active, not muted. -/
def claimFirstFree (name key : List Nat) : List Slot → Option (List Slot)
  | [] => none
  | s :: rest =>
      if s.active = false then
        some (⟨name.take 31, key.take 63, false, true⟩ :: rest)
      else (claimFirstFree name key rest).map (fun l => s :: l)

/-- MyMesh::setUserChannel: update an existing slot by name, else claim the
first free slot, else report full (false) leaving the slots unchanged. -/
def setUserChannel (slots : List Slot) (name key : List Nat) : Bool × List Slot :=
  match updateKeyFirst name key slots with
  | some l => (true, l)
  | none =>
      match claimFirstFree name key slots with
      | some l => (true, l)
      | none => (false, slots)

/-- Index of the first slot satisfying p, used to state the spec-side
description of setUserChannel. -/
def findIdxP (p : Slot → Bool) : List Slot → Option Nat
  | [] => none
  | s :: rest => if p s then some 0 else (findIdxP p rest).map (fun i => i + 1)

/-- Spec-side restatement of addOrUpdate, following the claim's words: if a
slot with the same name (case-insensitive) exists only its key spec is
replaced in place; otherwise the first inactive slot is claimed with
active=true and muted=false; otherwise full with every slot unchanged. -/
def setUserChannelSpec (slots : List Slot) (name key : List Nat) : Bool × List Slot :=
  match findIdxP (fun s => s.active && strCaseEq s.name name) slots with
  | some i =>
      (true, slots.set i
        (match slots.get? i with
         | some s => { s with key_hex := key.take 63 }
         | none => ⟨[], [], false, false⟩))
  | none =>
      match findIdxP (fun s => !s.active) slots with
      | some j => (true, slots.set j ⟨name.take 31, key.take 63, false, true⟩)
      | none => (false, slots)

/-- The contact-name match loop of AutocompleteVisitor::onContactVisit: it
compares lowered bytes while BOTH the typed partial token and the contact
name have characters left, so it also accepts a contact name that is
shorter than the token. First argument is the contact name, second the
typed partial token. -/
def cmAgree : List Nat → List Nat → Bool
  | _, [] => true
  | [], _ => true
  | a :: as, b :: bs => decide (toLowerByte a = toLowerByte b) && cmAgree as bs

/-- The keyword dispatch of the channel branch of handleTabCompletion:
the offset after "chsel ", "mute ch ", "unmute ch " or "del ch ". -/
def chKw (buf : List Nat) : Option Nat :=
  if buf.take 6 = toBytesS "chsel " then some 6
  else if buf.take 8 = toBytesS "mute ch " then some 8
  else if buf.take 10 = toBytesS "unmute ch " then some 10
  else if buf.take 7 = toBytesS "del ch " then some 7
  else none

/-- MyMesh::handleTabCompletion on the command buffer: after "to " the
contact names matched by cmAgree (nonempty names, visitor capped at
MAX_CONTACTS = 100); after a channel keyword, "Public" plus the active slot
names that have the token as case-insensitive prefix (strncasecmp). A
single match replaces the token (snprintf truncates to the buffer room);
zero or several matches leave the buffer unchanged. -/
def handleTab (contacts : List (List Nat)) (slots : List Slot) (buf : List Nat) :
    List Nat :=
  if buf.take 3 = toBytesS "to " ∧ 3 ≤ buf.length then
    match (contacts.filter (fun nm => cmAgree nm (buf.drop 3) && !nm.isEmpty)).take 100 with
    | [m] => toBytesS "to " ++ m.take 518
    | _ => buf
  else
    match chKw buf with
    | some off =>
        match
          (if ciPfxB (buf.drop off) (toBytesS "Public") then [toBytesS "Public"] else []) ++
            (slots.filter (fun s => s.active && ciPfxB (buf.drop off) s.name)).map
              (fun s => s.name) with
        | [m] => buf.take off ++ m.take (521 - off)
        | _ => buf
    | none => buf

/-- One keystroke of the editor in MyMesh::loop: CR/LF dispatches (or ignores
an empty line) and clears; Tab runs completion; Escape clears; backspace or
delete drops the last byte; any other byte is appended and echoed. The
command buffer is char[522]; dispatching a command never writes into it. -/
def loopStep (contacts : List (List Nat)) (slots : List Slot) (buf : List Nat)
    (c : Nat) : List Nat :=
  if c = 13 ∨ c = 10 then []
  else if c = 9 then handleTab contacts slots buf
  else if c = 27 then []
  else if c = 8 ∨ c = 127 then buf.dropLast
  else buf ++ [c]

/-- The read loop of MyMesh::loop: consume input bytes while the buffer
length stays below sizeof(command) - 1 = 521. -/
def consoleGo (contacts : List (List Nat)) (slots : List Slot) :
    List Nat → List Nat → List Nat
  | [], buf => buf
  | c :: rest, buf =>
      if buf.length < 521 then
        consoleGo contacts slots rest (loopStep contacts slots buf c)
      else buf

/-- One pass of MyMesh::loop: run the read loop, then the buffer-full check:
at length ≥ 521 an error is printed (the Bool) and the buffer cleared. -/
def chatLoop (contacts : List (List Nat)) (slots : List Slot)
    (input buf : List Nat) : List Nat × Bool :=
  let b := consoleGo contacts slots input buf
  if 521 ≤ b.length then ([], true) else (b, false)

/-- A persisted contact record (those fields of ContactInfo that
loadContacts/saveContacts move through the /contacts file), raw bytes. -/
structure Contact where
  pubKey : List Nat
  name : List Nat
  ctype : Nat
  flags : Nat
  outPathLen : Nat
  lastAdvertTimestamp : Nat
  outPath : List Nat
deriving DecidableEq, Repr

/-- Well-formedness of an in-memory contact record: field widths of the
source structs (32-byte key, raw 32-byte name buffer, byte-sized type,
flags and out_path_len, 32-bit timestamp, 64-byte path buffer). -/
def ContactWF (c : Contact) : Prop :=
  c.pubKey.length = 32 ∧ c.name.length = 32 ∧ c.ctype < 256 ∧ c.flags < 256 ∧
  c.outPathLen < 256 ∧ c.lastAdvertTimestamp < 4294967296 ∧ c.outPath.length = 64

instance (c : Contact) : Decidable (ContactWF c) := by
  unfold ContactWF; infer_instance

/-- The 4 bytes of a uint32 as the platform lays it out (little-endian). -/
def encodeLE32 (n : Nat) : List Nat :=
  [n % 256, n / 256 % 256, n / 65536 % 256, n / 16777216 % 256]

/-- Value of (up to) 4 little-endian bytes. -/
def leVal4 (l : List Nat) : Nat :=
  l.getD 0 0 + 256 * l.getD 1 0 + 65536 * l.getD 2 0 + 16777216 * l.getD 3 0

/-- file.read(buf, n) == n: take exactly n bytes of the stream or fail. -/
def readN (n : Nat) (bs : List Nat) : Option (List Nat × List Nat) :=
  if n ≤ bs.length then some (bs.take n, bs.drop n) else none

/-- One record as written by MyMesh::saveContacts: pubkey, raw name buffer,
type, flags, one zero byte (unused), four zero bytes (reserved),
out_path_len, the 4 timestamp bytes, the 64-byte out_path buffer. -/
def encodeContact (c : Contact) : List Nat :=
  c.pubKey ++ c.name ++ c.ctype :: c.flags :: 0 :: 0 :: 0 :: 0 :: 0 ::
    c.outPathLen :: (encodeLE32 c.lastAdvertTimestamp ++ c.outPath)

/-- One record as read by MyMesh::loadContacts: the same sequence of reads,
failing on any short read; the unused and reserved bytes are read into
locals and discarded. -/
def decodeContact (bs : List Nat) : Option (Contact × List Nat) :=
  match readN 32 bs with
  | none => none
  | some (pk, r1) =>
  match readN 32 r1 with
  | none => none
  | some (nm, r2) =>
  match readN 1 r2 with
  | none => none
  | some (ty, r3) =>
  match readN 1 r3 with
  | none => none
  | some (fl, r4) =>
  match readN 1 r4 with
  | none => none
  | some (_, r5) =>
  match readN 4 r5 with
  | none => none
  | some (_, r6) =>
  match readN 1 r6 with
  | none => none
  | some (opl, r7) =>
  match readN 4 r7 with
  | none => none
  | some (ts, r8) =>
  match readN 64 r8 with
  | none => none
  | some (op, r9) =>
      some (⟨pk, nm, ty.getD 0 0, fl.getD 0 0, opl.getD 0 0, leVal4 ts, op⟩, r9)

theorem readN_some {n : Nat} {bs a r : List Nat} (h : readN n bs = some (a, r)) :
    a = bs.take n ∧ r = bs.drop n ∧ n ≤ bs.length := by
  unfold readN at h
  split at h
  · simp only [Option.some.injEq, Prod.mk.injEq] at h
    exact ⟨h.1.symm, h.2.symm, by assumption⟩
  · exact Option.noConfusion h

theorem decodeContact_some {bs : List Nat} {c : Contact} {rest : List Nat}
    (h : decodeContact bs = some (c, rest)) :
    rest.length + 140 = bs.length := by
  unfold decodeContact at h
  split at h
  · exact Option.noConfusion h
  rename_i pk r1 e1
  split at h
  · exact Option.noConfusion h
  rename_i nm r2 e2
  split at h
  · exact Option.noConfusion h
  rename_i ty r3 e3
  split at h
  · exact Option.noConfusion h
  rename_i fl r4 e4
  split at h
  · exact Option.noConfusion h
  rename_i u r5 e5
  split at h
  · exact Option.noConfusion h
  rename_i rv r6 e6
  split at h
  · exact Option.noConfusion h
  rename_i opl r7 e7
  split at h
  · exact Option.noConfusion h
  rename_i ts r8 e8
  split at h
  · exact Option.noConfusion h
  rename_i op r9 e9
  obtain ⟨-, h1, h1l⟩ := readN_some e1
  obtain ⟨-, h2, h2l⟩ := readN_some e2
  obtain ⟨-, h3, h3l⟩ := readN_some e3
  obtain ⟨-, h4, h4l⟩ := readN_some e4
  obtain ⟨-, h5, h5l⟩ := readN_some e5
  obtain ⟨-, h6, h6l⟩ := readN_some e6
  obtain ⟨-, h7, h7l⟩ := readN_some e7
  obtain ⟨-, h8, h8l⟩ := readN_some e8
  obtain ⟨-, h9, h9l⟩ := readN_some e9
  injection h with h0
  have hr : r9 = rest := congrArg Prod.snd h0
  subst hr h9 h8 h7 h6 h5 h4 h3 h2 h1
  simp only [List.length_drop] at *
  omega

/-- MyMesh::saveContacts: the /contacts file is recreated and every held
record written back-to-back. Modelled from the spec for the part outside
src: ContactsIterator yields the held records in the store's iteration
order, represented here by the list order. -/
def saveContactsBytes (cs : List Contact) : List Nat :=
  (cs.map encodeContact).flatten

/-- MyMesh::loadContacts: decode records one by one, stopping cleanly on a
short read; each decoded record goes through the add operation. Modelled
from the spec for the part outside src: addContact appends and fails once
the store holds cap (MAX_CONTACTS) records, which halts loading. -/
def loadContactsList (cap : Nat) (bs : List Nat) (acc : List Contact) :
    List Contact :=
  match hdec : decodeContact bs with
  | none => acc
  | some (c, rest) =>
      if acc.length < cap then loadContactsList cap rest (acc ++ [c])
      else acc
termination_by bs.length
decreasing_by
  have := decodeContact_some hdec
  omega

/-- MyMesh::setClock: move the clock to the requested time only if it is
strictly ahead of the current time; otherwise report an error (false) and
leave the clock alone. -/
def setClock (curr t : Nat) : Nat × Bool :=
  if t > curr then (t, true) else (curr, false)

/-- The busted-platform replacement _atoi: accumulate leading ASCII digits
into a uint32 (wrapping mod 2^32), stopping at the first non-digit. -/
def atoiU32 : List Nat → Nat → Nat
  | [], n => n
  | c :: rest, n =>
      if 48 ≤ c ∧ c ≤ 57 then atoiU32 rest ((n * 10 + (c - 48)) % 4294967296)
      else n

/-- The `time <epoch-seconds>` branch of MyMesh::handleCommand: parse the
argument with _atoi and call setClock. -/
def timeCmd (curr : Nat) (arg : List Nat) : Nat × Bool :=
  setClock curr (atoiU32 arg 0)

/-- The "clock sync" special text in MyMesh::onMessageRecv: a direct message
whose text is exactly "clock sync" calls setClock with the sender timestamp
plus one (uint32 arithmetic); any other text leaves the clock alone. -/
def clockSyncRecv (curr ts : Nat) (text : List Nat) : Nat × Bool :=
  if text = toBytesS "clock sync" then setClock curr ((ts + 1) % 4294967296)
  else (curr, false)

/-- The Czech diacritic switch cases of removeDiacritics in utils.h: pairs of
UTF-8 lead byte (195, 196 or 197) and continuation byte, with the ASCII
replacement letter each case writes. -/
def diaTable : List ((Nat × Nat) × Nat) :=
  [((195, 161), 97), ((195, 169), 101), ((195, 173), 105), ((195, 179), 111),
   ((195, 186), 117), ((195, 189), 121), ((195, 129), 65), ((195, 137), 69),
   ((195, 141), 73), ((195, 147), 79), ((195, 154), 85), ((195, 157), 89),
   ((196, 141), 99), ((196, 143), 100), ((196, 155), 101), ((196, 140), 67),
   ((196, 142), 68), ((196, 154), 69),
   ((197, 136), 110), ((197, 153), 114), ((197, 161), 115), ((197, 165), 116),
   ((197, 175), 117), ((197, 190), 122), ((197, 135), 78), ((197, 152), 82),
   ((197, 160), 83), ((197, 164), 84), ((197, 174), 85), ((197, 189), 90)]

/-- The switch on the continuation byte: the single replacement letter when
the pair is a table case, nothing (the byte pair is skipped) otherwise. -/
def diaMap (p y : Nat) : List Nat :=
  match diaTable.lookup (p, y) with
  | some v => [v]
  | none => []

/-- removeDiacritics from utils.h on the bytes of a NUL-terminated string:
ASCII bytes are copied; lead bytes 195/196/197 map their continuation byte
through the Czech table; other 2-, 3- and 4-byte UTF-8 sequences and
invalid bytes are skipped; a NUL (also one met inside a sequence, where the
source checks *src before each advance) ends the scan. -/
def removeDiacritics : List Nat → List Nat
  | [] => []
  | b :: rest =>
      if b = 0 then []
      else if b < 128 then b :: removeDiacritics rest
      else if b = 195 ∨ b = 196 ∨ b = 197 then
        match rest with
        | [] => []
        | y :: r2 => if y = 0 then [] else diaMap b y ++ removeDiacritics r2
      else if 192 ≤ b ∧ b ≤ 223 then
        match rest with
        | [] => []
        | y :: r2 => if y = 0 then [] else removeDiacritics r2
      else if 224 ≤ b ∧ b ≤ 239 then
        match rest with
        | [] => []
        | y :: r2 =>
            if y = 0 then []
            else
              match r2 with
              | [] => []
              | z :: r3 => if z = 0 then [] else removeDiacritics r3
      else if 240 ≤ b ∧ b ≤ 247 then
        match rest with
        | [] => []
        | y :: r2 =>
            if y = 0 then []
            else
              match r2 with
              | [] => []
              | z :: r3 =>
                  if z = 0 then []
                  else
                    match r3 with
                    | [] => []
                    | w :: r4 => if w = 0 then [] else removeDiacritics r4
      else removeDiacritics rest

/-- A 64-char hex key of ASCII zeros, for concrete scenarios. -/
def hex64z : List Nat := List.replicate 64 48

/-- A concrete active user slot named "work" with a 64-hex-char key. -/
def workSlot : Slot := ⟨toBytesS "work", hex64z, false, true⟩

/-- A free (inactive) slot. -/
def blankSlot : Slot := ⟨[], [], false, false⟩

/-- A stand-in hash function for concrete scenarios in which no hashtag slot
occurs (initChannels only hashes names that start with the hashtag byte). -/
def shaZero : List Nat → List Nat := fun _ => List.replicate 32 0

/-- Malformed-but-loadable persisted state: slot 0 is active with neither a
hashtag name nor key material (its key cannot derive), slot 1 is a normal
keyed channel. -/
def cexSlots : List Slot :=
  [⟨toBytesS "bad", [], false, true⟩, ⟨toBytesS "good", hex64z, false, true⟩, blankSlot]

/-- A well-formed directory: one active keyed slot, two free slots
(maxChannels = 4 as in the example platformio configuration). -/
def wSlots : List Slot := [workSlot, blankSlot, blankSlot]

/-- A concrete well-formed contact record. -/
def cSample : Contact :=
  ⟨List.replicate 32 0, List.replicate 32 0, 1, 2, 3, 5, List.replicate 64 0⟩

set_option maxRecDepth 10000

theorem readN_append {n : Nat} {l r : List Nat} (h : l.length = n) :
    readN n (l ++ r) = some (l, r) := by
  subst h
  simp [readN, List.take_left, List.drop_left]

theorem readN_cons1 (x : Nat) (t : List Nat) : readN 1 (x :: t) = some ([x], t) := by
  simp [readN]

theorem readN_cons4 (a b c d : Nat) (t : List Nat) :
    readN 4 (a :: b :: c :: d :: t) = some ([a, b, c, d], t) := by
  simp [readN]
  try omega

theorem leVal4_encodeLE32 {n : Nat} (h : n < 4294967296) :
    leVal4 (encodeLE32 n) = n := by
  simp [leVal4, encodeLE32]
  try omega

theorem decodeContact_encode (c : Contact) (h : ContactWF c) (rest : List Nat) :
    decodeContact (encodeContact c ++ rest) = some (c, rest) := by
  obtain ⟨h1, h2, h3, h4, h5, h6, h7⟩ := h
  have hle : (encodeLE32 c.lastAdvertTimestamp).length = 4 := by simp [encodeLE32]
  simp only [decodeContact, encodeContact, List.cons_append, List.append_assoc,
    readN_append h1, readN_append h2, readN_cons1, readN_cons4,
    readN_append hle, readN_append h7]
  simp [leVal4_encodeLE32 h6]

theorem decodeContact_nil : decodeContact [] = none := by rfl

theorem loadContactsList_nil (cap : Nat) (acc : List Contact) :
    loadContactsList cap [] acc = acc := by
  rw [loadContactsList]
  split
  · rfl
  next c rest hdec =>
    rw [decodeContact_nil] at hdec
    exact Option.noConfusion hdec

theorem loadContactsList_cons (cap : Nat) (c : Contact) (hwf : ContactWF c)
    (bs : List Nat) (acc : List Contact) (hlt : acc.length < cap) :
    loadContactsList cap (encodeContact c ++ bs) acc =
      loadContactsList cap bs (acc ++ [c]) := by
  rw [loadContactsList]
  split
  next hdec =>
    rw [decodeContact_encode c hwf bs] at hdec
    exact Option.noConfusion hdec
  next c1 rest hdec =>
    have h0 := (decodeContact_encode c hwf bs).symm.trans hdec
    injection h0 with h1
    have hc : c = c1 := congrArg Prod.fst h1
    have hr : bs = rest := congrArg Prod.snd h1
    subst hc hr
    rw [if_pos hlt]

theorem loadContactsList_save (cap : Nat) :
    ∀ (cs acc : List Contact), acc.length + cs.length ≤ cap →
      (∀ c ∈ cs, ContactWF c) →
      loadContactsList cap (saveContactsBytes cs) acc = acc ++ cs
  | [], acc, _, _ => by
      simp [saveContactsBytes, loadContactsList_nil]
  | c :: cs, acc, hlen, hwf => by
      have hc : ContactWF c := hwf c (by simp)
      have hsave : saveContactsBytes (c :: cs) = encodeContact c ++ saveContactsBytes cs := by
        simp [saveContactsBytes]
      rw [List.length_cons] at hlen
      have hlt : acc.length < cap := by omega
      rw [hsave, loadContactsList_cons cap c hc _ acc hlt]
      rw [loadContactsList_save cap cs (acc ++ [c])
        (by rw [List.length_append]; simp only [List.length_cons, List.length_nil]; omega)
        (fun x hx => hwf x (by simp [hx]))]
      simp

theorem strCaseEq_congr {n m : List Nat} (h : strLower n = strLower m) (x : List Nat) :
    strCaseEq x n = strCaseEq x m := by
  simp [strCaseEq, h]

theorem findChAux_congr {n m : List Nat} (h : strLower n = strLower m) :
    ∀ (slots : List Slot) (acc : Nat), findChAux n slots acc = findChAux m slots acc
  | [], _ => rfl
  | s :: rest, acc => by
      simp only [findChAux, strCaseEq_congr h s.name]
      split
      · rfl
      · exact findChAux_congr h rest _

theorem findChAux_index {name : List Nat} :
    ∀ (slots : List Slot) (acc k : Nat), findChAux name slots acc = some k →
      ∃ j s, k = acc + j ∧ (slots.filter (fun s => s.active)).get? j = some s ∧
        strCaseEq s.name name = true
  | [], acc, k, h => by exact Option.noConfusion h
  | s :: rest, acc, k, h => by
      rw [findChAux] at h
      split at h
      · next hc =>
          injection h with hk
          refine ⟨0, s, by omega, ?_, hc.2⟩
          rw [List.filter_cons_of_pos (by simpa using hc.1)]
          rfl
      · next hc =>
          by_cases ha : s.active = true
          · rw [if_pos ha] at h
            obtain ⟨j, t, hk, hg, hcq⟩ := findChAux_index rest (acc + 1) k h
            refine ⟨j + 1, t, by omega, ?_, hcq⟩
            rw [List.filter_cons_of_pos (by simpa using ha), List.get?_cons_succ]
            exact hg
          · rw [if_neg ha] at h
            obtain ⟨j, t, hk, hg, hcq⟩ := findChAux_index rest acc k h
            refine ⟨j, t, hk, ?_, hcq⟩
            rw [List.filter_cons_of_neg (by simpa using ha)]
            exact hg

theorem findChAux_none {name : List Nat} :
    ∀ (slots : List Slot) (acc : Nat), findChAux name slots acc = none →
      ∀ s ∈ slots, s.active = true → strCaseEq s.name name = false
  | [], _, _ => by intro s hs; exact absurd hs (by simp)
  | t :: rest, acc, h => by
      rw [findChAux] at h
      split at h
      · exact Option.noConfusion h
      · next hc =>
          intro s hs ha
          rcases List.mem_cons.mp hs with rfl | hmem
          · by_contra hne
            exact hc ⟨ha, by simpa using hne⟩
          · exact findChAux_none rest _ h s hmem ha

theorem buildRuntimeAux_acc (sha : List Nat → List Nat) (maxCh : Nat) :
    ∀ (slots : List Slot) (acc : List RC),
      ∃ l, buildRuntimeAux sha maxCh slots acc = acc ++ l
  | [], acc => ⟨[], by simp [buildRuntimeAux]⟩
  | s :: rest, acc => by
      rw [buildRuntimeAux]
      split
      · cases hd : deriveKey sha s with
        | some k =>
            obtain ⟨l, hl⟩ := buildRuntimeAux_acc sha maxCh rest (acc ++ [⟨s.name, k⟩])
            exact ⟨⟨s.name, k⟩ :: l, by simp [hl]⟩
        | none =>
            obtain ⟨l, hl⟩ := buildRuntimeAux_acc sha maxCh rest acc
            exact ⟨l, hl⟩
      · obtain ⟨l, hl⟩ := buildRuntimeAux_acc sha maxCh rest acc
        exact ⟨l, hl⟩

theorem buildRuntimeAux_all (sha : List Nat → List Nat) (maxCh : Nat) :
    ∀ (slots : List Slot) (acc : List RC),
      (∀ s ∈ slots, s.active = true → (deriveKey sha s).isSome = true) →
      acc.length + (slots.filter (fun s => s.active)).length ≤ maxCh →
      buildRuntimeAux sha maxCh slots acc =
        acc ++ (slots.filter (fun s => s.active)).map
          (fun s => ⟨s.name, (deriveKey sha s).getD []⟩)
  | [], acc, _, _ => by simp [buildRuntimeAux]
  | s :: rest, acc, hder, hcap => by
      by_cases ha : s.active = true
      · have hsome : (deriveKey sha s).isSome = true := hder s (by simp) ha
        obtain ⟨k, hk⟩ := Option.isSome_iff_exists.mp hsome
        rw [List.filter_cons_of_pos (by simpa using ha), List.length_cons] at hcap
        rw [buildRuntimeAux, if_pos ⟨ha, by omega⟩, hk]
        show buildRuntimeAux sha maxCh rest (acc ++ [⟨s.name, k⟩]) = _
        have hrec := buildRuntimeAux_all sha maxCh rest (acc ++ [(⟨s.name, k⟩ : RC)])
          (fun x hx hax => hder x (by simp [hx]) hax)
          (by rw [List.length_append]; simp only [List.length_cons, List.length_nil]; omega)
        rw [hrec, List.filter_cons_of_pos (by simpa using ha)]
        simp [hk]
      · rw [buildRuntimeAux]
        rw [if_neg (by simp [ha])]
        rw [List.filter_cons_of_neg (by simpa using ha)] at hcap ⊢
        exact buildRuntimeAux_all sha maxCh rest acc
          (fun x hx hax => hder x (by simp [hx]) hax) hcap

theorem updateKeyFirst_eq (name key : List Nat) :
    ∀ slots : List Slot,
      updateKeyFirst name key slots =
        (findIdxP (fun s => s.active && strCaseEq s.name name) slots).map
          (fun i => slots.set i
            (match slots.get? i with
             | some s => { s with key_hex := key.take 63 }
             | none => ⟨[], [], false, false⟩))
  | [] => rfl
  | s :: rest => by
      by_cases h : s.active = true ∧ strCaseEq s.name name = true
      · rw [updateKeyFirst, if_pos h, findIdxP,
          if_pos (by simp [h.1, h.2])]
        rfl
      · rw [updateKeyFirst, if_neg h, findIdxP,
          if_neg (by simpa [Bool.and_eq_true] using h)]
        rw [updateKeyFirst_eq name key rest]
        cases e : findIdxP (fun s => s.active && strCaseEq s.name name) rest <;> simp

theorem claimFirstFree_eq (name key : List Nat) :
    ∀ slots : List Slot,
      claimFirstFree name key slots =
        (findIdxP (fun s => !s.active) slots).map
          (fun j => slots.set j ⟨name.take 31, key.take 63, false, true⟩)
  | [] => rfl
  | s :: rest => by
      by_cases h : s.active = false
      · rw [claimFirstFree, if_pos h, findIdxP, if_pos (by simp [h])]
        rfl
      · rw [claimFirstFree, if_neg h, findIdxP, if_neg (by simpa using h)]
        rw [claimFirstFree_eq name key rest]
        cases e : findIdxP (fun s => !s.active) rest <;> simp

theorem setUserChannel_eq_spec (slots : List Slot) (name key : List Nat) :
    setUserChannel slots name key = setUserChannelSpec slots name key := by
  unfold setUserChannel setUserChannelSpec
  rw [updateKeyFirst_eq, claimFirstFree_eq]
  cases e1 : findIdxP (fun s => s.active && strCaseEq s.name name) slots
  · cases e2 : findIdxP (fun s => !s.active) slots <;> rfl
  · rfl

theorem chKw_le {buf : List Nat} {off : Nat} (h : chKw buf = some off) : off ≤ 10 := by
  unfold chKw at h
  split_ifs at h <;> injection h with h1 <;> omega

theorem handleTab_length (contacts : List (List Nat)) (slots : List Slot)
    (buf : List Nat) : (handleTab contacts slots buf).length ≤ max buf.length 521 := by
  unfold handleTab
  split
  · split
    · next m _ =>
        have h3 : (toBytesS "to ").length = 3 := by decide
        simp only [List.length_append, h3]
        have := List.length_take_le 518 m
        omega
    · exact Nat.le_max_left _ _
  · split
    · next off heq =>
        have hoff := chKw_le heq
        split
        · next m _ =>
            simp only [List.length_append]
            have h1 := List.length_take_le off buf
            have h2 := List.length_take_le (521 - off) m
            omega
        · exact Nat.le_max_left _ _
    · exact Nat.le_max_left _ _

theorem loopStep_length (contacts : List (List Nat)) (slots : List Slot)
    (buf : List Nat) (c : Nat) (hb : buf.length < 521) :
    (loopStep contacts slots buf c).length ≤ 521 := by
  unfold loopStep
  split_ifs
  · simp
  · have := handleTab_length contacts slots buf
    omega
  · simp
  · have := List.length_dropLast buf
    omega
  · simp
    omega

theorem consoleGo_length (contacts : List (List Nat)) (slots : List Slot) :
    ∀ (input buf : List Nat), buf.length ≤ 521 →
      (consoleGo contacts slots input buf).length ≤ 521
  | [], buf, hb => by simpa [consoleGo] using hb
  | c :: rest, buf, hb => by
      rw [consoleGo]
      split
      · next hlt =>
          exact consoleGo_length contacts slots rest _
            (loopStep_length contacts slots buf c hlt)
      · exact hb

theorem lookup_mem {α β : Type} [BEq α] :
    ∀ {l : List (α × β)} {a : α} {b : β}, l.lookup a = some b → ∃ p ∈ l, p.2 = b
  | [], a, b, h => by exact Option.noConfusion h
  | (k, v) :: t, a, b, h => by
      rw [List.lookup] at h
      split at h
      · injection h with hv
        exact ⟨(k, v), by simp, hv⟩
      · obtain ⟨p, hp, hpb⟩ := lookup_mem h
        exact ⟨p, by simp [hp], hpb⟩

theorem diaMap_mem {p y x : Nat} (hx : x ∈ diaMap p y) : 0 < x ∧ x < 128 := by
  unfold diaMap at hx
  split at hx
  · next v hv =>
      obtain ⟨e, he, heb⟩ := lookup_mem hv
      have hall : ∀ e ∈ diaTable, 0 < e.2 ∧ e.2 < 128 := by decide
      have := hall e he
      simp at hx
      omega
  · simp at hx

theorem diaMap_len (p y : Nat) : (diaMap p y).length ≤ 1 := by
  unfold diaMap
  split <;> simp

theorem rd_nul (r : List Nat) : removeDiacritics (0 :: r) = [] := by
  rw [removeDiacritics.eq_def]
  simp

theorem rd_ascii {b : Nat} (h1 : ¬ b = 0) (h2 : b < 128) (r : List Nat) :
    removeDiacritics (b :: r) = b :: removeDiacritics r := by
  rw [removeDiacritics.eq_def]
  simp only [if_neg h1, if_pos h2]

theorem rd_dia_nil {b : Nat} (h1 : ¬ b = 0) (h2 : ¬ b < 128)
    (h3 : b = 195 ∨ b = 196 ∨ b = 197) : removeDiacritics [b] = [] := by
  rw [removeDiacritics.eq_def]
  simp only [if_neg h1, if_neg h2, if_pos h3]

theorem rd_dia_nul2 {b : Nat} (h1 : ¬ b = 0) (h2 : ¬ b < 128)
    (h3 : b = 195 ∨ b = 196 ∨ b = 197) (r : List Nat) :
    removeDiacritics (b :: 0 :: r) = [] := by
  rw [removeDiacritics.eq_def]
  simp only [if_neg h1, if_neg h2, if_pos h3]
  simp

theorem rd_dia {b y : Nat} (h1 : ¬ b = 0) (h2 : ¬ b < 128)
    (h3 : b = 195 ∨ b = 196 ∨ b = 197) (hy : ¬ y = 0) (r : List Nat) :
    removeDiacritics (b :: y :: r) = diaMap b y ++ removeDiacritics r := by
  rw [removeDiacritics.eq_def]
  simp only [if_neg h1, if_neg h2, if_pos h3, if_neg hy]

theorem rd_b2_nil {b : Nat} (h1 : ¬ b = 0) (h2 : ¬ b < 128)
    (h3 : ¬ (b = 195 ∨ b = 196 ∨ b = 197)) (h4 : 192 ≤ b ∧ b ≤ 223) :
    removeDiacritics [b] = [] := by
  rw [removeDiacritics.eq_def]
  simp only [if_neg h1, if_neg h2, if_neg h3, if_pos h4]

theorem rd_b2_nul {b : Nat} (h1 : ¬ b = 0) (h2 : ¬ b < 128)
    (h3 : ¬ (b = 195 ∨ b = 196 ∨ b = 197)) (h4 : 192 ≤ b ∧ b ≤ 223) (r : List Nat) :
    removeDiacritics (b :: 0 :: r) = [] := by
  rw [removeDiacritics.eq_def]
  simp only [if_neg h1, if_neg h2, if_neg h3, if_pos h4]
  simp

theorem rd_b2 {b y : Nat} (h1 : ¬ b = 0) (h2 : ¬ b < 128)
    (h3 : ¬ (b = 195 ∨ b = 196 ∨ b = 197)) (h4 : 192 ≤ b ∧ b ≤ 223) (hy : ¬ y = 0)
    (r : List Nat) : removeDiacritics (b :: y :: r) = removeDiacritics r := by
  rw [removeDiacritics.eq_def]
  simp only [if_neg h1, if_neg h2, if_neg h3, if_pos h4, if_neg hy]

theorem rd_b3_nil {b : Nat} (h1 : ¬ b = 0) (h2 : ¬ b < 128)
    (h3 : ¬ (b = 195 ∨ b = 196 ∨ b = 197)) (h4 : ¬ (192 ≤ b ∧ b ≤ 223))
    (h5 : 224 ≤ b ∧ b ≤ 239) : removeDiacritics [b] = [] := by
  rw [removeDiacritics.eq_def]
  simp only [if_neg h1, if_neg h2, if_neg h3, if_neg h4, if_pos h5]

theorem rd_b3_nul {b : Nat} (h1 : ¬ b = 0) (h2 : ¬ b < 128)
    (h3 : ¬ (b = 195 ∨ b = 196 ∨ b = 197)) (h4 : ¬ (192 ≤ b ∧ b ≤ 223))
    (h5 : 224 ≤ b ∧ b ≤ 239) (r : List Nat) :
    removeDiacritics (b :: 0 :: r) = [] := by
  rw [removeDiacritics.eq_def]
  simp only [if_neg h1, if_neg h2, if_neg h3, if_neg h4, if_pos h5]
  simp

theorem rd_b3_nil2 {b y : Nat} (h1 : ¬ b = 0) (h2 : ¬ b < 128)
    (h3 : ¬ (b = 195 ∨ b = 196 ∨ b = 197)) (h4 : ¬ (192 ≤ b ∧ b ≤ 223))
    (h5 : 224 ≤ b ∧ b ≤ 239) (hy : ¬ y = 0) : removeDiacritics [b, y] = [] := by
  rw [removeDiacritics.eq_def]
  simp only [if_neg h1, if_neg h2, if_neg h3, if_neg h4, if_pos h5, if_neg hy]

theorem rd_b3_nul2 {b y : Nat} (h1 : ¬ b = 0) (h2 : ¬ b < 128)
    (h3 : ¬ (b = 195 ∨ b = 196 ∨ b = 197)) (h4 : ¬ (192 ≤ b ∧ b ≤ 223))
    (h5 : 224 ≤ b ∧ b ≤ 239) (hy : ¬ y = 0) (r : List Nat) :
    removeDiacritics (b :: y :: 0 :: r) = [] := by
  rw [removeDiacritics.eq_def]
  simp only [if_neg h1, if_neg h2, if_neg h3, if_neg h4, if_pos h5, if_neg hy]
  simp

theorem rd_b3 {b y z : Nat} (h1 : ¬ b = 0) (h2 : ¬ b < 128)
    (h3 : ¬ (b = 195 ∨ b = 196 ∨ b = 197)) (h4 : ¬ (192 ≤ b ∧ b ≤ 223))
    (h5 : 224 ≤ b ∧ b ≤ 239) (hy : ¬ y = 0) (hz : ¬ z = 0) (r : List Nat) :
    removeDiacritics (b :: y :: z :: r) = removeDiacritics r := by
  rw [removeDiacritics.eq_def]
  simp only [if_neg h1, if_neg h2, if_neg h3, if_neg h4, if_pos h5, if_neg hy, if_neg hz]

theorem rd_b4_nil {b : Nat} (h1 : ¬ b = 0) (h2 : ¬ b < 128)
    (h3 : ¬ (b = 195 ∨ b = 196 ∨ b = 197)) (h4 : ¬ (192 ≤ b ∧ b ≤ 223))
    (h5 : ¬ (224 ≤ b ∧ b ≤ 239)) (h6 : 240 ≤ b ∧ b ≤ 247) :
    removeDiacritics [b] = [] := by
  rw [removeDiacritics.eq_def]
  simp only [if_neg h1, if_neg h2, if_neg h3, if_neg h4, if_neg h5, if_pos h6]

theorem rd_b4_nul {b : Nat} (h1 : ¬ b = 0) (h2 : ¬ b < 128)
    (h3 : ¬ (b = 195 ∨ b = 196 ∨ b = 197)) (h4 : ¬ (192 ≤ b ∧ b ≤ 223))
    (h5 : ¬ (224 ≤ b ∧ b ≤ 239)) (h6 : 240 ≤ b ∧ b ≤ 247) (r : List Nat) :
    removeDiacritics (b :: 0 :: r) = [] := by
  rw [removeDiacritics.eq_def]
  simp only [if_neg h1, if_neg h2, if_neg h3, if_neg h4, if_neg h5, if_pos h6]
  simp

theorem rd_b4_nil2 {b y : Nat} (h1 : ¬ b = 0) (h2 : ¬ b < 128)
    (h3 : ¬ (b = 195 ∨ b = 196 ∨ b = 197)) (h4 : ¬ (192 ≤ b ∧ b ≤ 223))
    (h5 : ¬ (224 ≤ b ∧ b ≤ 239)) (h6 : 240 ≤ b ∧ b ≤ 247) (hy : ¬ y = 0) :
    removeDiacritics [b, y] = [] := by
  rw [removeDiacritics.eq_def]
  simp only [if_neg h1, if_neg h2, if_neg h3, if_neg h4, if_neg h5, if_pos h6, if_neg hy]

theorem rd_b4_nul2 {b y : Nat} (h1 : ¬ b = 0) (h2 : ¬ b < 128)
    (h3 : ¬ (b = 195 ∨ b = 196 ∨ b = 197)) (h4 : ¬ (192 ≤ b ∧ b ≤ 223))
    (h5 : ¬ (224 ≤ b ∧ b ≤ 239)) (h6 : 240 ≤ b ∧ b ≤ 247) (hy : ¬ y = 0) (r : List Nat) :
    removeDiacritics (b :: y :: 0 :: r) = [] := by
  rw [removeDiacritics.eq_def]
  simp only [if_neg h1, if_neg h2, if_neg h3, if_neg h4, if_neg h5, if_pos h6, if_neg hy]
  simp

theorem rd_b4_nil3 {b y z : Nat} (h1 : ¬ b = 0) (h2 : ¬ b < 128)
    (h3 : ¬ (b = 195 ∨ b = 196 ∨ b = 197)) (h4 : ¬ (192 ≤ b ∧ b ≤ 223))
    (h5 : ¬ (224 ≤ b ∧ b ≤ 239)) (h6 : 240 ≤ b ∧ b ≤ 247) (hy : ¬ y = 0)
    (hz : ¬ z = 0) : removeDiacritics [b, y, z] = [] := by
  rw [removeDiacritics.eq_def]
  simp only [if_neg h1, if_neg h2, if_neg h3, if_neg h4, if_neg h5, if_pos h6,
    if_neg hy, if_neg hz]

theorem rd_b4_nul3 {b y z : Nat} (h1 : ¬ b = 0) (h2 : ¬ b < 128)
    (h3 : ¬ (b = 195 ∨ b = 196 ∨ b = 197)) (h4 : ¬ (192 ≤ b ∧ b ≤ 223))
    (h5 : ¬ (224 ≤ b ∧ b ≤ 239)) (h6 : 240 ≤ b ∧ b ≤ 247) (hy : ¬ y = 0)
    (hz : ¬ z = 0) (r : List Nat) : removeDiacritics (b :: y :: z :: 0 :: r) = [] := by
  rw [removeDiacritics.eq_def]
  simp only [if_neg h1, if_neg h2, if_neg h3, if_neg h4, if_neg h5, if_pos h6,
    if_neg hy, if_neg hz]
  simp

theorem rd_b4 {b y z w : Nat} (h1 : ¬ b = 0) (h2 : ¬ b < 128)
    (h3 : ¬ (b = 195 ∨ b = 196 ∨ b = 197)) (h4 : ¬ (192 ≤ b ∧ b ≤ 223))
    (h5 : ¬ (224 ≤ b ∧ b ≤ 239)) (h6 : 240 ≤ b ∧ b ≤ 247) (hy : ¬ y = 0)
    (hz : ¬ z = 0) (hw : ¬ w = 0) (r : List Nat) :
    removeDiacritics (b :: y :: z :: w :: r) = removeDiacritics r := by
  rw [removeDiacritics.eq_def]
  simp only [if_neg h1, if_neg h2, if_neg h3, if_neg h4, if_neg h5, if_pos h6,
    if_neg hy, if_neg hz, if_neg hw]

theorem rd_inv {b : Nat} (h1 : ¬ b = 0) (h2 : ¬ b < 128)
    (h3 : ¬ (b = 195 ∨ b = 196 ∨ b = 197)) (h4 : ¬ (192 ≤ b ∧ b ≤ 223))
    (h5 : ¬ (224 ≤ b ∧ b ≤ 239)) (h6 : ¬ (240 ≤ b ∧ b ≤ 247)) (r : List Nat) :
    removeDiacritics (b :: r) = removeDiacritics r := by
  rw [removeDiacritics.eq_def]
  simp only [if_neg h1, if_neg h2, if_neg h3, if_neg h4, if_neg h5, if_neg h6]

theorem rd_main : ∀ (N : Nat) (l : List Nat), l.length ≤ N →
    (∀ x ∈ removeDiacritics l, 0 < x ∧ x < 128) ∧
    (removeDiacritics l).length ≤ l.length
  | _, [], _ => by simp [removeDiacritics]
  | 0, b :: r, hN => by simp at hN
  | N + 1, b :: r, hN => by
      have hN1 : r.length ≤ N := by simp at hN; omega
      by_cases h1 : b = 0
      · subst h1; rw [rd_nul]; simp
      by_cases h2 : b < 128
      · rw [rd_ascii h1 h2]
        obtain ⟨ihm, ihl⟩ := rd_main N r hN1
        refine ⟨?_, by simpa using Nat.succ_le_succ ihl⟩
        intro x hx
        rcases List.mem_cons.mp hx with rfl | hx2
        · exact ⟨by omega, h2⟩
        · exact ihm x hx2
      by_cases h3 : b = 195 ∨ b = 196 ∨ b = 197
      · cases r with
        | nil => rw [rd_dia_nil h1 h2 h3]; simp
        | cons y r2 =>
            by_cases hy : y = 0
            · subst hy; rw [rd_dia_nul2 h1 h2 h3]; simp
            · rw [rd_dia h1 h2 h3 hy]
              obtain ⟨ihm, ihl⟩ := rd_main N r2 (by simp at hN1; omega)
              refine ⟨?_, ?_⟩
              · intro x hx
                rcases List.mem_append.mp hx with hx2 | hx2
                · exact diaMap_mem hx2
                · exact ihm x hx2
              · have hdl := diaMap_len b y
                simp only [List.length_append, List.length_cons]
                omega
      by_cases h4 : 192 ≤ b ∧ b ≤ 223
      · cases r with
        | nil => rw [rd_b2_nil h1 h2 h3 h4]; simp
        | cons y r2 =>
            by_cases hy : y = 0
            · subst hy; rw [rd_b2_nul h1 h2 h3 h4]; simp
            · rw [rd_b2 h1 h2 h3 h4 hy]
              obtain ⟨ihm, ihl⟩ := rd_main N r2 (by simp at hN1; omega)
              exact ⟨ihm, by simp only [List.length_cons]; omega⟩
      by_cases h5 : 224 ≤ b ∧ b ≤ 239
      · cases r with
        | nil => rw [rd_b3_nil h1 h2 h3 h4 h5]; simp
        | cons y r2 =>
            by_cases hy : y = 0
            · subst hy; rw [rd_b3_nul h1 h2 h3 h4 h5]; simp
            cases r2 with
            | nil => rw [rd_b3_nil2 h1 h2 h3 h4 h5 hy]; simp
            | cons z r3 =>
                by_cases hz : z = 0
                · subst hz; rw [rd_b3_nul2 h1 h2 h3 h4 h5 hy]; simp
                · rw [rd_b3 h1 h2 h3 h4 h5 hy hz]
                  obtain ⟨ihm, ihl⟩ := rd_main N r3 (by simp at hN1; omega)
                  exact ⟨ihm, by simp only [List.length_cons]; omega⟩
      by_cases h6 : 240 ≤ b ∧ b ≤ 247
      · cases r with
        | nil => rw [rd_b4_nil h1 h2 h3 h4 h5 h6]; simp
        | cons y r2 =>
            by_cases hy : y = 0
            · subst hy; rw [rd_b4_nul h1 h2 h3 h4 h5 h6]; simp
            cases r2 with
            | nil => rw [rd_b4_nil2 h1 h2 h3 h4 h5 h6 hy]; simp
            | cons z r3 =>
                by_cases hz : z = 0
                · subst hz; rw [rd_b4_nul2 h1 h2 h3 h4 h5 h6 hy]; simp
                cases r3 with
                | nil => rw [rd_b4_nil3 h1 h2 h3 h4 h5 h6 hy hz]; simp
                | cons w r4 =>
                    by_cases hw : w = 0
                    · subst hw; rw [rd_b4_nul3 h1 h2 h3 h4 h5 h6 hy hz]; simp
                    · rw [rd_b4 h1 h2 h3 h4 h5 h6 hy hz hw]
                      obtain ⟨ihm, ihl⟩ := rd_main N r4 (by simp at hN1; omega)
                      exact ⟨ihm, by simp only [List.length_cons]; omega⟩
      · rw [rd_inv h1 h2 h3 h4 h5 h6]
        obtain ⟨ihm, ihl⟩ := rd_main N r hN1
        exact ⟨ihm, by simp only [List.length_cons]; omega⟩

theorem removeDiacritics_clean : ∀ (l : List Nat),
    (∀ b ∈ l, 0 < b ∧ b < 128) → removeDiacritics l = l
  | [], _ => rfl
  | b :: r, h => by
      have hb := h b (by simp)
      rw [rd_ascii (by omega) hb.2]
      rw [removeDiacritics_clean r (fun x hx => h x (by simp [hx]))]

/-- Claim C1 (code-bug evidence): with maxChannels = 4, one active user slot
named "work" at runtime index 1 and selected_channel_idx = 1 — so "work" is
the currently selected channel, as the pre-state lookup in the first
conjunct shows — `del ch work` deactivates the slot and persists the
preferences, but leaves selected_channel_idx at 1 instead of resetting it
to 0: the handler reads the selected channel's name from the slots AFTER
the deactivation, so the name it compares is never the deleted one. The
refusal of the built-in name (third conjunct) does hold. -/
theorem delCh_selected_not_reset :
    getChannelNameFromPrefs 4 wSlots 1 = some (toBytesS "work") ∧
    delCh 4 ⟨wSlots, 1⟩ (toBytesS "work") =
      (⟨[⟨toBytesS "work", hex64z, false, false⟩, blankSlot, blankSlot], 1⟩, true,
        DelResult.removed) ∧
    delCh 4 ⟨wSlots, 1⟩ (toBytesS "Public") =
      (⟨wSlots, 1⟩, false, DelResult.builtinRefused) := by
  decide

/-- Claim C2 counterexample: in cexSlots the active slot "bad" derives no key
and occupies no runtime index, so the runtime list built at startup is
[Public, good]; resolve("good") nevertheless returns 2, the position of
"good" counted over ALL active slots — index 2 does not even exist in the
runtime list, whose index for "good" is 1. -/
theorem findChannelByName_runtime_mismatch :
    findChannelByName cexSlots (toBytesS "good") = some 2 ∧
    (buildRuntime shaZero 4 cexSlots).get? 1 =
      some ⟨toBytesS "good", encodeBase64 (hexToBytes hex64z)⟩ ∧
    (buildRuntime shaZero 4 cexSlots).get? 2 = none := by
  decide

/-- Claim C2 (amended): resolve("public"/"pub") is index 0; resolve is
invariant under case changes of the queried name; a successful resolve of n
returns 1 plus the number of active slots before the first case-insensitive
match in slot order, which is that channel's current runtime index whenever
every active slot's key derives (the conjunct exhibits the runtime entry at
the returned index and its name matches n, Public at index 0); and a failed
resolve means no active slot's name matches. -/
theorem findChannelByName_spec (sha : List Nat → List Nat) (maxCh : Nat)
    (slots : List Slot) (p n m n2 : List Nat) (k : Nat)
    (hlen : slots.length < maxCh)
    (hder : ∀ s ∈ slots, s.active = true → (deriveKey sha s).isSome = true)
    (hpub : (strCaseEq p (toBytesS "public") || strCaseEq p (toBytesS "pub")) = true)
    (hcase : strLower n = strLower m)
    (hmatch : findChannelByName slots n = some k)
    (hnone : findChannelByName slots n2 = none) :
    findChannelByName slots p = some 0 ∧
    findChannelByName slots n = findChannelByName slots m ∧
    (∃ rc, (buildRuntime sha maxCh slots).get? k = some rc ∧
      ((k = 0 ∧ rc = pubChannel) ∨ strLower rc.name = strLower n)) ∧
    (∀ s ∈ slots, s.active = true → strCaseEq s.name n2 = false) := by
  have hcap1 : (1 : Nat) + (slots.filter (fun s => s.active)).length ≤ maxCh := by
    have := List.length_filter_le (fun s => s.active) slots
    omega
  have hrt : buildRuntime sha maxCh slots =
      pubChannel :: (slots.filter (fun s => s.active)).map
        (fun s => ⟨s.name, (deriveKey sha s).getD []⟩) := by
    rw [buildRuntime,
      buildRuntimeAux_all sha maxCh slots [pubChannel] hder (by simpa using hcap1)]
    rfl
  refine ⟨?_, ?_, ?_, ?_⟩
  · rw [findChannelByName]
    rcases Bool.or_eq_true_iff.mp hpub with h | h
    · rw [if_pos (Or.inl h)]
    · rw [if_pos (Or.inr h)]
  · rw [findChannelByName, findChannelByName]
    have e1 : strCaseEq n (toBytesS "public") = strCaseEq m (toBytesS "public") := by
      simp [strCaseEq, hcase]
    have e2 : strCaseEq n (toBytesS "pub") = strCaseEq m (toBytesS "pub") := by
      simp [strCaseEq, hcase]
    rw [e1, e2]
    split
    · rfl
    · exact findChAux_congr hcase slots 1
  · rw [findChannelByName] at hmatch
    split at hmatch
    · injection hmatch with hk
      subst hk
      refine ⟨pubChannel, ?_, Or.inl ⟨rfl, rfl⟩⟩
      rw [hrt]
      rfl
    · obtain ⟨j, s, hk, hg, hcq⟩ := findChAux_index slots 1 k hmatch
      refine ⟨⟨s.name, (deriveKey sha s).getD []⟩, ?_, Or.inr ?_⟩
      · rw [hrt, hk, Nat.add_comm 1 j, List.get?_cons_succ, List.get?_map, hg]
        rfl
      · simpa [strCaseEq] using hcq
  · rw [findChannelByName] at hnone
    split at hnone
    · exact Option.noConfusion hnone
    · exact findChAux_none slots 1 hnone

/-- Witness for the amended claim C2 at a concrete directory: "PUB" resolves
to 0, "work" and "WORK" resolve alike, the resolved index 1 of "work" holds
the runtime entry whose name matches, and "zzz" matches no active slot. -/
theorem findChannelByName_spec_witness :
    findChannelByName wSlots (toBytesS "PUB") = some 0 ∧
    findChannelByName wSlots (toBytesS "work") = findChannelByName wSlots (toBytesS "WORK") ∧
    (∃ rc, (buildRuntime shaZero 4 wSlots).get? 1 = some rc ∧
      ((1 = 0 ∧ rc = pubChannel) ∨ strLower rc.name = strLower (toBytesS "work"))) ∧
    (∀ s ∈ wSlots, s.active = true → strCaseEq s.name (toBytesS "zzz") = false) :=
  findChannelByName_spec shaZero 4 wSlots (toBytesS "PUB") (toBytesS "work")
    (toBytesS "WORK") (toBytesS "zzz") 1 (by decide) (by decide) (by decide)
    (by decide) (by decide) (by decide)

/-- Claim C3 counterexample: a persisted contact record is 140 bytes, not the
141 the claim states (32 + 32 + 1 + 1 + 1 + 4 + 1 + 4 + 64 = 140). -/
theorem contactRecord_not_141_bytes :
    (encodeContact cSample).length = 140 ∧ ¬ (encodeContact cSample).length = 141 := by
  decide

/-- Claim C3 (amended): every well-formed persisted contact record is
bit-exact and fixed at 140 bytes, laid out as pubkey[32], name[32],
type(1), flags(1), reserved(1), reserved(4), outPathLen(1),
lastAdvertTimestamp(4), outPath[64], with the reserved fields written as
zero; and on read the five reserved bytes are ignored — decoding a record
carrying arbitrary bytes there still returns exactly the same contact. -/
theorem contactRecord_layout (c : Contact) (u r1 r2 r3 r4 : Nat) (tail : List Nat)
    (h : ContactWF c) :
    (encodeContact c).length = 140 ∧
    encodeContact c =
      c.pubKey ++ c.name ++ c.ctype :: c.flags :: 0 :: 0 :: 0 :: 0 :: 0 ::
        c.outPathLen :: (encodeLE32 c.lastAdvertTimestamp ++ c.outPath) ∧
    decodeContact
      (c.pubKey ++ c.name ++ c.ctype :: c.flags :: u :: r1 :: r2 :: r3 :: r4 ::
        c.outPathLen :: (encodeLE32 c.lastAdvertTimestamp ++ (c.outPath ++ tail))) =
      some (c, tail) := by
  obtain ⟨h1, h2, h3, h4, h5, h6, h7⟩ := h
  have hle : (encodeLE32 c.lastAdvertTimestamp).length = 4 := by simp [encodeLE32]
  refine ⟨?_, rfl, ?_⟩
  · simp only [encodeContact, List.length_append, List.length_cons, hle, h1, h2, h7]
  · simp only [decodeContact, List.cons_append, List.append_assoc,
      readN_append h1, readN_append h2, readN_cons1, readN_cons4,
      readN_append hle, readN_append h7]
    simp [leVal4_encodeLE32 h6]

/-- Witness for the amended claim C3 at a concrete record, with junk bytes
7, 1, 2, 3, 4 in the reserved fields and a trailing byte 9. -/
theorem contactRecord_layout_witness :
    (encodeContact cSample).length = 140 ∧
    encodeContact cSample =
      cSample.pubKey ++ cSample.name ++ cSample.ctype :: cSample.flags :: 0 :: 0 :: 0 :: 0 :: 0 ::
        cSample.outPathLen :: (encodeLE32 cSample.lastAdvertTimestamp ++ cSample.outPath) ∧
    decodeContact
      (cSample.pubKey ++ cSample.name ++ cSample.ctype :: cSample.flags :: 7 :: 1 :: 2 :: 3 :: 4 ::
        cSample.outPathLen :: (encodeLE32 cSample.lastAdvertTimestamp ++ (cSample.outPath ++ [9]))) =
      some (cSample, [9]) :=
  contactRecord_layout cSample 7 1 2 3 4 [9] (by decide)

/-- Claim C4: for a store of at most cap well-formed records, saveContacts
followed by loadContacts on the produced byte stream reproduces the records
exactly — the same list, hence an equal multiset, with every persisted
field byte-identical. -/
theorem contacts_save_load_roundtrip (cap : Nat) (cs : List Contact)
    (h1 : cs.length ≤ cap) (h2 : ∀ c ∈ cs, ContactWF c) :
    loadContactsList cap (saveContactsBytes cs) [] = cs ∧
    ((loadContactsList cap (saveContactsBytes cs) [] : List Contact) : Multiset Contact) =
      (cs : Multiset Contact) := by
  have h := loadContactsList_save cap cs [] (by simpa using h1) h2
  simp only [List.nil_append] at h
  exact ⟨h, by rw [h]⟩

/-- Witness for claim C4 at a one-record store with capacity MAX_CONTACTS
= 100. -/
theorem contacts_save_load_roundtrip_witness :
    loadContactsList 100 (saveContactsBytes [cSample]) [] = [cSample] ∧
    ((loadContactsList 100 (saveContactsBytes [cSample]) [] : List Contact) : Multiset Contact) =
      ([cSample] : Multiset Contact) :=
  contacts_save_load_roundtrip 100 [cSample] (by decide) (by decide)

/-- Claim C5: for a slot whose name starts with the hashtag byte, the derived
runtime channel key is the base64 encoding of the first 16 bytes of the
hash of the name's bytes (sha stands for the external SHA-256); the
derivation depends only on the name, so any slot with the same name — in
any directory — derives the identical key; and the built-in channel whose
key encoding it shares heads every runtime list. -/
theorem hashtag_key_derivation (sha : List Nat → List Nat) (maxCh : Nat)
    (slots : List Slot) (s t : Slot)
    (h1 : s.name.headD 0 = 35) (h2 : t.name = s.name) :
    deriveKey sha s = some (encodeBase64 ((sha s.name).take 16)) ∧
    deriveKey sha t = deriveKey sha s ∧
    (buildRuntime sha maxCh slots).head? = some pubChannel := by
  have hd : deriveKey sha s = some (encodeBase64 ((sha s.name).take 16)) := by
    rw [deriveKey, if_pos h1]
  refine ⟨hd, ?_, ?_⟩
  · rw [hd, deriveKey, h2, if_pos h1]
  · obtain ⟨l, hl⟩ := buildRuntimeAux_acc sha maxCh slots [pubChannel]
    rw [buildRuntime, hl]
    rfl

/-- Witness for claim C5 at the slot name "#general", with a second slot of
the same name but different key material and flags. -/
theorem hashtag_key_derivation_witness :
    deriveKey shaZero ⟨toBytesS "#general", [], false, true⟩ =
      some (encodeBase64 ((shaZero (toBytesS "#general")).take 16)) ∧
    deriveKey shaZero ⟨toBytesS "#general", toBytesS "ff", true, false⟩ =
      deriveKey shaZero ⟨toBytesS "#general", [], false, true⟩ ∧
    (buildRuntime shaZero 4 []).head? = some pubChannel :=
  hashtag_key_derivation shaZero 4 [] ⟨toBytesS "#general", [], false, true⟩
    ⟨toBytesS "#general", toBytesS "ff", true, false⟩ (by decide) (by decide)

/-- Claim C6: setUserChannel behaves exactly as specified — if an active slot
with the same name (case-insensitive) exists, only that slot's key spec is
replaced in place; otherwise the first inactive slot is claimed with the
new name and key, active and not muted; and when neither exists it returns
full (false) with every slot unchanged. setUserChannelSpec is that
specification written with first-index search and pointwise update. -/
theorem setUserChannel_correct (slots : List Slot) (name key : List Nat) :
    setUserChannel slots name key = setUserChannelSpec slots name key :=
  setUserChannel_eq_spec slots name key

/-- Claim C7 (code-bug evidence): with a single known contact named "al" and
the buffer "to alice", the typed token "alice" is not a case-insensitive
prefix of "al" (second conjunct), so the claimed candidate set is empty and
the buffer should stay unchanged; but the contact-matching loop stops at
the end of the contact name, accepts "al" as the unique candidate, and tab
rewrites the buffer to "to al", truncating what the operator typed. -/
theorem tab_completion_short_name_eval :
    handleTab [toBytesS "al"] [] (toBytesS "to alice") = toBytesS "to al" ∧
    ciPfxB (toBytesS "alice") (toBytesS "al") = false ∧
    toBytesS "to al" ≠ toBytesS "to alice" := by
  decide

/-- Claim C8: for every input byte sequence fed to the shell with a buffer
currently within bounds, the command line buffer length never exceeds
sizeof(command) - 1 = 521 (capacity 522 including the NUL): the read loop
preserves the bound, the buffer after a full pass is within bounds, and
whenever the loop fills the buffer to 521 the pass ends with the error
flag raised and the buffer cleared rather than overflowed. -/
theorem command_buffer_bounded (contacts : List (List Nat)) (slots : List Slot)
    (input buf : List Nat) (hb : buf.length ≤ 521) :
    (consoleGo contacts slots input buf).length ≤ 521 ∧
    ((chatLoop contacts slots input buf).1).length ≤ 521 ∧
    (521 ≤ (consoleGo contacts slots input buf).length →
      chatLoop contacts slots input buf = ([], true)) := by
  have hinv := consoleGo_length contacts slots input buf hb
  refine ⟨hinv, ?_, ?_⟩
  · rw [chatLoop]
    split
    · simp
    · simpa using hinv
  · intro h
    rw [chatLoop, if_pos h]

/-- Witness for claim C8 on the empty buffer and the input "hi". -/
theorem command_buffer_bounded_witness :
    (consoleGo [] [] (toBytesS "hi") []).length ≤ 521 ∧
    ((chatLoop [] [] (toBytesS "hi") []).1).length ≤ 521 ∧
    (521 ≤ (consoleGo [] [] (toBytesS "hi") []).length →
      chatLoop [] [] (toBytesS "hi") [] = ([], true)) :=
  command_buffer_bounded [] [] (toBytesS "hi") [] (by decide)

/-- Claim C9: setClock moves the clock to the requested time exactly when it
is strictly ahead of the current time and otherwise reports an error
leaving the clock unchanged, so the clock never goes backwards — also
through the `time` command (which parses its argument with _atoi) and the
"clock sync" message path (which requests sender timestamp + 1). -/
theorem setClock_monotone (curr t u v ts : Nat) (s txt : List Nat)
    (h1 : curr < t) (h2 : u ≤ curr) :
    setClock curr t = (t, true) ∧
    setClock curr u = (curr, false) ∧
    curr ≤ (setClock curr v).1 ∧
    curr ≤ (timeCmd curr s).1 ∧
    curr ≤ (clockSyncRecv curr ts txt).1 := by
  refine ⟨?_, ?_, ?_, ?_, ?_⟩
  · rw [setClock, if_pos h1]
  · rw [setClock, if_neg (by omega)]
  · rw [setClock]
    split
    · simp
      omega
    · simp
  · rw [timeCmd, setClock]
    split
    · simp
      omega
    · simp
  · rw [clockSyncRecv]
    split
    · rw [setClock]
      split
      · simp
        omega
      · simp
    · simp

/-- Witness for claim C9 at clock 5: setting 9 succeeds, setting 3 fails, and
each path leaves the clock at or above 5. -/
theorem setClock_monotone_witness :
    setClock 5 9 = (9, true) ∧
    setClock 5 3 = (5, false) ∧
    5 ≤ (setClock 5 0).1 ∧
    5 ≤ (timeCmd 5 (toBytesS "7")).1 ∧
    5 ≤ (clockSyncRecv 5 0 []).1 :=
  setClock_monotone 5 9 3 0 0 (toBytesS "7") [] (by decide) (by decide)

/-- Claim C10: removeDiacritics yields only ASCII bytes (all below 128), its
output is never longer than its input, and it is idempotent — applying it
to its own output returns that output unchanged. -/
theorem removeDiacritics_ascii_idem (l : List Nat) :
    ((removeDiacritics l).all (fun b => decide (b < 128)) = true) ∧
    (removeDiacritics l).length ≤ l.length ∧
    removeDiacritics (removeDiacritics l) = removeDiacritics l := by
  obtain ⟨hm, hl⟩ := rd_main l.length l (le_refl _)
  refine ⟨?_, hl, ?_⟩
  · rw [List.all_eq_true]
    intro b hb
    exact decide_eq_true (hm b hb).2
  · exact removeDiacritics_clean _ (fun b hb => hm b hb)
